import Mathlib

/-!
Verification of the node-zwave-pe653 firmware updater.

This file gives a shallow embedding, in Lean, of the repository's core code:

* the CRC primitives from `src/crc.js` (`reverseBits8`, `reverseBits32`,
  `crc32brTableGen`/`crc32firmware`, `crc16update`);
* the firmware-upload engine from `src/index.js` (`uploadFirmware` and the
  reply-dispatch loop inside it);
* the firmware-archive decoder from `src/index.js` (`readFirmwareArchive`);
* the `getTime` diagnostic from `src/index.js`.

JavaScript numbers are embedded as `Nat`, with explicit masking (`&&& 0xffff`,
`&&& 0xffffffff`, `% 256`) exactly where the source masks, so that every value
that the source keeps in byte / 16-bit / 32-bit range stays in that range here.
Fallible code (the archive decoder, which `throw`s) is embedded in
`Except String`.  Asynchronous transports are embedded by passing the list of
replies (`Option packet`, `none` being the timeout marker) that the transport
would deliver, one per `sendAndReceive` call.
-/

/-! ## CRC primitives (`src/crc.js`) -/

/-- Bit reversal of a byte (`reverseBits8`, crc.js lines 1-6). -/
def reverseBits8 (x0 : Nat) : Nat :=
  let x1 := ((x0 <<< 4) &&& 0xf0) ||| ((x0 >>> 4) &&& 0x0f)
  let x2 := ((x1 <<< 2) &&& 0xcc) ||| ((x1 >>> 2) &&& 0x33)
  ((x2 <<< 1) &&& 0xaa) ||| ((x2 >>> 1) &&& 0x55)

/-- Bit reversal of a 32-bit word (`reverseBits32`, crc.js lines 8-15).
The source's final `>>> 0` is the identity on the unsigned value. -/
def reverseBits32 (x0 : Nat) : Nat :=
  let x1 := ((x0 <<< 16) &&& 0xffff0000) ||| ((x0 >>> 16) &&& 0x0000ffff)
  let x2 := ((x1 <<< 8) &&& 0xff00ff00) ||| ((x1 >>> 8) &&& 0x00ff00ff)
  let x3 := ((x2 <<< 4) &&& 0xf0f0f0f0) ||| ((x2 >>> 4) &&& 0x0f0f0f0f)
  let x4 := ((x3 <<< 2) &&& 0xcccccccc) ||| ((x3 >>> 2) &&& 0x33333333)
  ((x4 <<< 1) &&& 0xaaaaaaaa) ||| ((x4 >>> 1) &&& 0x55555555)

/-- One iteration of the inner `for` loop of `crc16update` (crc.js lines 56-60):
shift left, and on carry out of bit 15 fold in the XMODEM polynomial 0x1021. -/
def crc16shift (c0 : Nat) : Nat :=
  let c := c0 <<< 1
  if c &&& 0x10000 ≠ 0 then (c ^^^ 0x1021) &&& 0xffff else c

/-- XMODEM CRC-16 byte update (`crc16update`, crc.js lines 54-62). -/
def crc16update (crc byte : Nat) : Nat :=
  crc16shift^[8] (crc ^^^ (byte <<< 8))

/-- CRC-16 of a whole byte sequence: `crc16update` folded from initial value 0,
as both `uploadFirmware` (index.js line 516-517) and the simulator
(index.js lines 278-280) do. -/
def crc16 (l : List Nat) : Nat := l.foldl crc16update 0

set_option maxRecDepth 40000 in
/-- C4: the XMODEM CRC-16 is independent of chunking — folding `crc16update`
over `a` and then over `b` (starting from 0) equals folding it over `a ++ b`
starting from 0 — and the CRC of the ASCII bytes of "123456789" is 0x31C3. -/
theorem crc16update_chunking_and_check_value :
    (∀ a b : List Nat,
      List.foldl crc16update (List.foldl crc16update 0 a) b = crc16 (a ++ b)) ∧
    crc16 ("123456789".toList.map Char.toNat) = 0x31C3 :=
  ⟨fun a b => (List.foldl_append crc16update 0 a b).symm, by decide⟩

/-! ## Upload engine (`uploadFirmware`, index.js lines 467-535)

The engine is an event loop: each iteration transmits `currentPacket` through
`transport.sendAndReceive` and dispatches on the reply (`null` marking a
timeout).  We embed the transport by the list of replies it would deliver, one
per call, and embed one loop iteration as `handleReply`. -/

/-- Packet-type constants (index.js lines 218-225). -/
def packetStart : Nat := 0

def packetData : Nat := 2

def packetDataRequest : Nat := 3

def packetDone : Nat := 6

def packetCRCError : Nat := 7

def commandFirmwareTransfer : Nat := 42

def maxTimeouts : Nat := 5

def knownFirmwareSize : Nat := 116 * 1024

/-- The mutable locals of `uploadFirmware` (index.js lines 468-471).
`currentSeq` starts at -1, so it is an `Int`. -/
structure EngineState where
  currentSeq : Int
  currentPacket : List Nat
  timeouts : Nat
  done : Bool
deriving DecidableEq, Repr

/-- Initial engine state (index.js lines 468-471). -/
def initEngineState : EngineState :=
  { currentSeq := -1
    currentPacket := [commandFirmwareTransfer, packetStart]
    timeouts := 0
    done := false }

/-- The DATA packet built at index.js lines 514-518 for an accepted
`DATA_REQUEST` with sequence number `seq`: header, up to 32 bytes of `blob`
starting at `seq * 32`, then the XMODEM CRC-16 of all preceding bytes,
little-endian. -/
def mkDataPacket (blob : List Nat) (seq : Nat) : List Nat :=
  let offset := seq * 32
  let data := (blob.drop offset).take (min (offset + 32) blob.length - offset)
  let packet := [commandFirmwareTransfer, packetData, seq &&& 0xff, seq >>> 8] ++ data
  let c := crc16 packet
  packet ++ [c &&& 0xff, c >>> 8]

/-- Result of one iteration of the upload loop: either the loop returns
(`halt ok`, index.js lines 498, 527, 531), or it continues with a new state.
`accepted` carries the sequence number when this iteration accepted a
`DATA_REQUEST` (the `seq !== currentSeq + 1` filter passed, index.js line 508),
and `builtData` whether a DATA packet (rather than a DONE packet) was built. -/
inductive EngineStep where
  | halt (ok : Bool)
  | next (s : EngineState) (accepted : Option Nat) (builtData : Bool)
deriving DecidableEq, Repr

/-- One iteration of the `for (;;)` loop of `uploadFirmware`
(index.js lines 484-534), given the reply delivered by the transport for the
packet just sent (`none` = timeout). -/
def handleReply (blob : List Nat) (s : EngineState) (reply : Option (List Nat)) :
    EngineStep :=
  match reply with
  | none =>
    -- index.js lines 486-499: on timeout bump the counter; below the budget
    -- resend the same packet, otherwise give up (returning false whether or
    -- not DONE was already sent).
    let t := s.timeouts + 1
    if t < maxTimeouts then .next { s with timeouts := t } none false
    else .halt false
  | some reply =>
    let s := { s with timeouts := 0 }  -- index.js line 500
    if reply.length < 4 then .next s none false  -- index.js line 502
    else if reply.getD 0 0 ≠ commandFirmwareTransfer then .next s none false
    else
      let type := reply.getD 1 0
      let seq := reply.getD 2 0 ||| (reply.getD 3 0 <<< 8)
      if type = packetDataRequest then
        -- index.js lines 507-524
        if (seq : Int) ≠ s.currentSeq + 1 then .next s none false
        else
          let offset := seq * 32
          if offset < blob.length then
            .next { s with currentSeq := seq,
                           currentPacket := mkDataPacket blob seq }
              (some seq) true
          else
            .next { s with currentSeq := seq,
                           currentPacket := [commandFirmwareTransfer, packetDone,
                                             seq &&& 0xff, seq >>> 8],
                           done := true }
              (some seq) false
      else if type = packetDone then .halt true       -- index.js lines 525-528
      else if type = packetCRCError then .halt false  -- index.js lines 529-532
      else .next s none false  -- unrecognized packet types are ignored

/-- Run the upload loop on a finite list of transport replies.  Returns
the loop's result (`none` when the replies ran out first), the state when the
run stopped, the packets transmitted (one per reply consumed), the accepted
`DATA_REQUEST` sequence numbers, and the sequence numbers of those accepted
requests answered with a DATA packet. -/
def runEngine (blob : List Nat) :
    EngineState → List (Option (List Nat)) →
    Option Bool × EngineState × List (List Nat) × List Nat × List Nat
  | s, [] => (none, s, [], [], [])
  | s, r :: rs =>
    match handleReply blob s r with
    | .halt ok => (some ok, s, [s.currentPacket], [], [])
    | .next s' accepted builtData =>
      let (res, sF, sent, accs, dataSeqs) := runEngine blob s' rs
      (res, sF, s.currentPacket :: sent,
       (accepted.map fun q => q :: accs).getD accs,
       (accepted.filter fun _ => builtData).elim dataSeqs (· :: dataSeqs))

/-- `uploadFirmware` (index.js lines 467-535): the pre-flight size check
(line 473) and disabled CRC gate (lines 33-42 and 478: `checkFirmwareCRC`
always returns true), then the reply loop. -/
def uploadFirmware (blob : List Nat) (replies : List (Option (List Nat))) :
    Option Bool × EngineState × List (List Nat) × List Nat × List Nat :=
  if blob.length ≠ knownFirmwareSize then
    (some false, initEngineState, [], [], [])
  else
    runEngine blob initEngineState replies

/-! ## Upload-engine theorems (claims C1, C2, C3) -/

theorem handleReply_next_cases {blob : List Nat} {s : EngineState} {r : Option (List Nat)}
    {s' : EngineState} {acc : Option Nat} {bd : Bool}
    (h : handleReply blob s r = .next s' acc bd) :
    (acc = none ∧ bd = false ∧ s'.currentSeq = s.currentSeq ∧
      s'.currentPacket = s.currentPacket) ∨
    (∃ q : Nat, acc = some q ∧ (q : Int) = s.currentSeq + 1 ∧ s'.currentSeq = (q : Int) ∧
      (bd = true ↔ q * 32 < blob.length)) := by
  unfold handleReply at h
  cases r with
  | none =>
    dsimp only at h
    split at h
    · cases h; exact Or.inl ⟨rfl, rfl, rfl, rfl⟩
    · cases h
  | some reply =>
    dsimp only at h
    repeat' split at h
    all_goals cases h
    all_goals try exact Or.inl ⟨rfl, rfl, rfl, rfl⟩
    all_goals rename_i hseq hoff
    all_goals first
    | exact Or.inr ⟨_, rfl, not_ne_iff.mp hseq, rfl, fun _ => hoff, fun _ => rfl⟩
    | exact Or.inr ⟨_, rfl, not_ne_iff.mp hseq, rfl,
        fun hff => absurd hff Bool.false_ne_true, fun hp => absurd hp hoff⟩

theorem runEngine_accepted_contiguous (blob : List Nat) :
    ∀ (rs : List (Option (List Nat))) (s : EngineState) (m : Nat),
      s.currentSeq + 1 = (m : Int) →
      ∃ k, (runEngine blob s rs).2.2.2.1 = List.range' m k ∧
           (runEngine blob s rs).2.2.2.2 =
             (List.range' m k).filter (fun q => decide (q * 32 < blob.length)) := by
  intro rs
  induction rs with
  | nil => intro s m hm; exact ⟨0, rfl, rfl⟩
  | cons r rs ih =>
    intro s m hm
    simp only [runEngine]
    rcases hh : handleReply blob s r with ok | ⟨s', acc, bd⟩
    · exact ⟨0, rfl, rfl⟩
    · rcases handleReply_next_cases hh with ⟨hacc, hbd, hseq, -⟩ | ⟨q, hacc, hq, hseq, hbd⟩
      · obtain ⟨k, h1, h2⟩ := ih s' m (by rw [hseq]; exact hm)
        subst hacc hbd
        exact ⟨k, by simp [h1], by simp [h2]⟩
      · have hqm : q = m := by
          have : (q : Int) = (m : Int) := by rw [hq, hm]
          exact_mod_cast this
        subst hqm hacc
        obtain ⟨k, h1, h2⟩ := ih s' (q + 1) (by rw [hseq]; push_cast; ring)
        refine ⟨k + 1, ?_, ?_⟩
        · simp [h1, List.range'_succ]
        · by_cases hlt : q * 32 < blob.length
          · have : bd = true := hbd.mpr hlt
            subst this
            simp [h2, List.range'_succ, List.filter_cons, hlt, Option.filter]
          · have : bd = false := by
              cases bd
              · rfl
              · exact absurd (hbd.mp rfl) hlt
            subst this
            simp [h2, List.range'_succ, List.filter_cons, hlt, Option.filter]

/-- C1 (amended): in every run of the upload engine — in particular in every
successful one (`(uploadFirmware blob replies).1 = some true`) — the accepted
`DATA_REQUEST` sequence numbers form the gapless, duplicate-free initial
sequence `0, 1, …, k-1` for some `k`, and DATA packets are emitted exactly at
those accepted sequence numbers `q` with `q * 32 < blob.length` (equivalently
`q < ceil(blob.length / 32)`).  The original claim — that in a successful run
the accepted sequence numbers are exactly `0, 1, …, ceil(blob.length / 32)` —
fails because the engine accepts a DONE reply without checking its sequence
number (index.js line 525 has no `seq` test), so a successful run can accept
any initial segment, including the empty one; see
`uploadFirmware_success_without_requests`. -/
theorem uploadFirmware_accepted_contiguous (blob : List Nat)
    (replies : List (Option (List Nat)))
    (hok : (uploadFirmware blob replies).1 = some true) :
    ∃ k, (uploadFirmware blob replies).2.2.2.1 = List.range k ∧
         (uploadFirmware blob replies).2.2.2.2 =
           (List.range k).filter (fun q => decide (q * 32 < blob.length)) := by
  unfold uploadFirmware at hok ⊢
  split at hok
  · exact absurd hok (by simp)
  · next hsize =>
    rw [if_neg hsize]
    obtain ⟨k, h1, h2⟩ :=
      runEngine_accepted_contiguous blob replies initEngineState 0 (by simp [initEngineState])
    exact ⟨k, by rw [List.range_eq_range']; exact h1,
              by rw [List.range_eq_range']; exact h2⟩

/-- C1 (counterexample to the claim as stated): a run of `uploadFirmware` on a
118,784-byte blob in which the transport's only reply is an immediate DONE
packet returns success while accepting no `DATA_REQUEST` at all and emitting no
DATA packet, so the accepted sequence numbers are not
`0 … ceil(blob.length/32) = 3712` and the emitted DATA packets are not
`0 … 3711`. -/
theorem uploadFirmware_success_without_requests :
    (uploadFirmware (List.replicate knownFirmwareSize 0) [some [42, 6, 0, 0]]).1 = some true ∧
    (uploadFirmware (List.replicate knownFirmwareSize 0) [some [42, 6, 0, 0]]).2.2.2.1 = [] ∧
    (uploadFirmware (List.replicate knownFirmwareSize 0) [some [42, 6, 0, 0]]).2.2.2.2 = [] ∧
    ([] : List Nat) ≠ List.range (knownFirmwareSize / 32 + 1) ∧
    ([] : List Nat) ≠ List.range (knownFirmwareSize / 32) := by
  have hlen : (List.replicate knownFirmwareSize (0 : Nat)).length = knownFirmwareSize :=
    List.length_replicate knownFirmwareSize 0
  have hrun : uploadFirmware (List.replicate knownFirmwareSize 0) [some [42, 6, 0, 0]] =
      (some true, { initEngineState with timeouts := 0 },
        [initEngineState.currentPacket], [], []) := by
    unfold uploadFirmware
    rw [if_neg (by rw [hlen]; exact fun h => h rfl)]
    simp [runEngine, handleReply, initEngineState, packetDataRequest, packetDone,
      commandFirmwareTransfer]
  refine ⟨by rw [hrun], by rw [hrun], by rw [hrun], by simp [knownFirmwareSize],
    by simp [knownFirmwareSize]⟩

theorem upload_two_replies_ok (blob : List Nat) (hlen : blob.length = knownFirmwareSize) :
    (uploadFirmware blob [some [42, 3, 0, 0], some [42, 6, 0, 0]]).1 = some true := by
  have hk : (0 : Nat) < knownFirmwareSize := by norm_num [knownFirmwareSize]
  unfold uploadFirmware
  rw [if_neg (by rw [hlen]; exact fun h => h rfl)]
  simp [runEngine, handleReply, initEngineState, packetDataRequest, packetDone,
    commandFirmwareTransfer, hlen, hk]

theorem uploadFirmware_accepted_contiguous_witness :
    ∃ k, (uploadFirmware (List.replicate knownFirmwareSize 0)
            [some [42, 3, 0, 0], some [42, 6, 0, 0]]).2.2.2.1 = List.range k ∧
         (uploadFirmware (List.replicate knownFirmwareSize 0)
            [some [42, 3, 0, 0], some [42, 6, 0, 0]]).2.2.2.2 =
           (List.range k).filter
             (fun q => decide (q * 32 < (List.replicate knownFirmwareSize (0 : Nat)).length)) :=
  uploadFirmware_accepted_contiguous _ _
    (upload_two_replies_ok _ (List.length_replicate knownFirmwareSize 0))

theorem runEngine_timeouts_aux (blob : List Nat) :
    ∀ (N : Nat) (s : EngineState), s.timeouts + N < maxTimeouts →
      runEngine blob s (List.replicate N none) =
        (none, { s with timeouts := s.timeouts + N },
         List.replicate N s.currentPacket, [], []) := by
  intro N
  induction N with
  | zero => intro s _; simp [runEngine]
  | succ N ih =>
    intro s hN
    have h1 : s.timeouts + 1 < maxTimeouts := by omega
    have step : handleReply blob s none =
        .next { s with timeouts := s.timeouts + 1 } none false := by
      unfold handleReply
      rw [if_pos h1]
    rw [List.replicate_succ]
    simp only [runEngine, step]
    rw [ih { s with timeouts := s.timeouts + 1 } (by simpa using by omega)]
    simp [List.replicate_succ]
    omega

/-- C3: if the transport reports N consecutive timeouts with N below the
retransmission budget `maxTimeouts = 5`, the engine transmits the byte-for-byte
identical packet `s.currentPacket` on every one of those N exchanges, and its
state is unchanged except for the timeout counter — in particular
`currentSeq`, the expected-next-sequence tracker, does not advance. -/
theorem uploadFirmware_timeout_retransmits (blob : List Nat) (s : EngineState) (N : Nat)
    (h0 : s.timeouts = 0) (hN : N < maxTimeouts) :
    runEngine blob s (List.replicate N none) =
      (none, { s with timeouts := N }, List.replicate N s.currentPacket, [], []) := by
  have := runEngine_timeouts_aux blob N s (by omega)
  rwa [h0, Nat.zero_add] at this

theorem uploadFirmware_timeout_retransmits_witness :
    (initEngineState.timeouts = 0) ∧ 4 < maxTimeouts ∧
    runEngine [] initEngineState (List.replicate 4 none) =
      (none, { initEngineState with timeouts := 4 },
       List.replicate 4 initEngineState.currentPacket, [], []) :=
  ⟨rfl, by decide, uploadFirmware_timeout_retransmits [] initEngineState 4 rfl (by decide)⟩

theorem crc16shift_lt {c : Nat} (hc : c < 65536) : crc16shift c < 65536 := by
  simp only [crc16shift]
  split
  · exact Nat.lt_of_le_of_lt Nat.and_le_right (by norm_num)
  · next h =>
    have h0 : (c <<< 1) &&& 65536 = 0 := by omega
    have h2 : c <<< 1 = c * 2 := by rw [Nat.shiftLeft_eq]
    have htb : (c * 2).testBit 16 = false := by
      have hand := Nat.and_two_pow (c * 2) 16
      rw [h2] at h0
      rw [show (2 : Nat) ^ 16 = 65536 from by norm_num] at hand
      rw [h0] at hand
      cases hEq : (c * 2).testBit 16 with
      | false => rfl
      | true => rw [hEq] at hand; simp at hand
    rw [Nat.testBit_to_div_mod] at htb
    simp only [decide_eq_false_iff_not] at htb
    have hd : c * 2 / 2 ^ 16 < 2 := by
      rw [Nat.div_lt_iff_lt_mul (by norm_num)]
      omega
    have h3 : (2 : Nat) ^ 16 = 65536 := by norm_num
    rw [h3] at htb hd
    rw [h2]
    omega

theorem crc16shift_iter_lt : ∀ (n : Nat) {c : Nat}, c < 65536 → crc16shift^[n] c < 65536 := by
  intro n
  induction n with
  | zero => intro c hc; simpa using hc
  | succ n ih =>
    intro c hc
    rw [Function.iterate_succ_apply]
    exact ih (crc16shift_lt hc)

theorem crc16update_lt {c b : Nat} (hc : c < 65536) (hb : b < 256) :
    crc16update c b < 65536 := by
  unfold crc16update
  apply crc16shift_iter_lt
  apply Nat.xor_lt_two_pow (n := 16) hc
  rw [Nat.shiftLeft_eq]
  omega

theorem crc16_foldl_lt :
    ∀ (l : List Nat) {c : Nat}, c < 65536 → (∀ b ∈ l, b < 256) →
      List.foldl crc16update c l < 65536 := by
  intro l
  induction l with
  | nil => intro c hc _; simpa using hc
  | cons x xs ih =>
    intro c hc hl
    rw [List.foldl_cons]
    exact ih (crc16update_lt hc (hl x (by simp))) fun b hb => hl b (by simp [hb])

theorem getD_lt_256 {l : List Nat} (hl : ∀ b ∈ l, b < 256) (i : Nat) : l.getD i 0 < 256 := by
  by_cases h : i < l.length
  · rw [List.getD_eq_getElem l 0 h]
    exact hl _ (List.getElem_mem h)
  · rw [List.getD_eq_default l 0 (by omega)]
    norm_num

theorem packet_tail_framing (base : List Nat) (hbase : ∀ b ∈ base, b < 256) :
    (base ++ [crc16 base &&& 255, crc16 base >>> 8]).getD base.length 0 +
      256 * (base ++ [crc16 base &&& 255, crc16 base >>> 8]).getD (base.length + 1) 0 =
      crc16 ((base ++ [crc16 base &&& 255, crc16 base >>> 8]).take base.length) := by
  have hc : crc16 base < 65536 := crc16_foldl_lt base (by norm_num) hbase
  rw [List.take_left]
  rw [List.getD_append_right _ _ _ _ (le_refl _)]
  rw [List.getD_append_right _ _ _ _ (by omega : base.length ≤ base.length + 1)]
  simp only [Nat.sub_self, Nat.add_sub_cancel_left]
  rw [List.getD_cons_zero, List.getD_cons_succ, List.getD_cons_zero]
  rw [show (255 : Nat) = 2 ^ 8 - 1 from by norm_num]
  rw [Nat.and_pow_two_sub_one_eq_mod, Nat.shiftRight_eq_div_pow]
  have := Nat.mod_add_div (crc16 base) (2 ^ 8)
  omega

theorem mkDataPacket_framing (blob : List Nat) (q : Nat)
    (hblob : ∀ b ∈ blob, b < 256) (hq : q < 65536) (hoff : q * 32 < blob.length) :
    1 ≤ (mkDataPacket blob q).length - 6 ∧ (mkDataPacket blob q).length - 6 ≤ 32 ∧
    (mkDataPacket blob q).getD ((mkDataPacket blob q).length - 2) 0 +
      256 * (mkDataPacket blob q).getD ((mkDataPacket blob q).length - 1) 0 =
      crc16 ((mkDataPacket blob q).take ((mkDataPacket blob q).length - 2)) := by
  have hdl : ((blob.drop (q * 32)).take (min (q * 32 + 32) blob.length - q * 32)).length
      = min (q * 32 + 32) blob.length - q * 32 := by
    rw [List.length_take, List.length_drop]; omega
  have hbb : ∀ b ∈ [commandFirmwareTransfer, packetData, q &&& 255, q >>> 8] ++
      (blob.drop (q * 32)).take (min (q * 32 + 32) blob.length - q * 32), b < 256 := by
    intro b hb
    rcases List.mem_append.mp hb with h4 | hd
    · simp only [List.mem_cons, List.not_mem_nil, or_false] at h4
      rcases h4 with rfl | rfl | rfl | rfl
      · norm_num [commandFirmwareTransfer]
      · norm_num [packetData]
      · exact Nat.lt_of_le_of_lt Nat.and_le_right (by norm_num)
      · rw [Nat.shiftRight_eq_div_pow]
        have : q / 2 ^ 8 ≤ q / 256 := by norm_num
        omega
    · exact hblob b (List.mem_of_mem_drop (List.mem_of_mem_take hd))
  have hmain := packet_tail_framing _ hbb
  simp only [mkDataPacket]
  have hplen : (([commandFirmwareTransfer, packetData, q &&& 255, q >>> 8] ++
      (blob.drop (q * 32)).take (min (q * 32 + 32) blob.length - q * 32)) ++
      [crc16 ([commandFirmwareTransfer, packetData, q &&& 255, q >>> 8] ++
        (blob.drop (q * 32)).take (min (q * 32 + 32) blob.length - q * 32)) &&& 255,
       crc16 ([commandFirmwareTransfer, packetData, q &&& 255, q >>> 8] ++
        (blob.drop (q * 32)).take (min (q * 32 + 32) blob.length - q * 32)) >>> 8]).length
      = (4 + (min (q * 32 + 32) blob.length - q * 32)) + 2 := by
    simp [hdl]; omega
  refine ⟨?_, ?_, ?_⟩
  · rw [hplen]; omega
  · rw [hplen]; omega
  · rw [hplen]
    have h2 : 4 + (min (q * 32 + 32) blob.length - q * 32) + 2 - 2 =
        ([commandFirmwareTransfer, packetData, q &&& 255, q >>> 8] ++
          (blob.drop (q * 32)).take (min (q * 32 + 32) blob.length - q * 32)).length := by
      simp [hdl]; omega
    have h1 : 4 + (min (q * 32 + 32) blob.length - q * 32) + 2 - 1 =
        ([commandFirmwareTransfer, packetData, q &&& 255, q >>> 8] ++
          (blob.drop (q * 32)).take (min (q * 32 + 32) blob.length - q * 32)).length + 1 := by
      simp [hdl]; omega
    rw [h2, h1]
    exact hmain

theorem handleReply_builtData {blob : List Nat} {s : EngineState} {reply : List Nat}
    {s' : EngineState} {q : Nat}
    (h : handleReply blob s (some reply) = .next s' (some q) true) :
    s'.currentPacket = mkDataPacket blob q ∧ q * 32 < blob.length ∧
    q = reply.getD 2 0 ||| (reply.getD 3 0 <<< 8) := by
  unfold handleReply at h
  dsimp only at h
  repeat' split at h
  all_goals cases h
  exact ⟨rfl, by assumption, rfl⟩

/-- C2: whenever the upload engine emits a DATA packet (a loop iteration
accepts a `DATA_REQUEST` and builds a DATA packet, i.e. `handleReply` yields
`builtData = true`), the packet's payload length `N - 6` is between 1 and 32
inclusive, and the final two bytes are the XMODEM CRC-16 of all preceding
bytes of the packet, encoded little-endian (`lo + 256 * hi = crc16 prefix`).
Byte-valued inputs (`blob` and reply entries below 256) match the JavaScript
setting, where both come from `Uint8Array`s / byte buffers. -/
theorem uploadFirmware_data_packet_framing (blob : List Nat) (s s' : EngineState)
    (reply : List Nat) (q : Nat)
    (hblob : ∀ b ∈ blob, b < 256) (hreply : ∀ b ∈ reply, b < 256)
    (h : handleReply blob s (some reply) = .next s' (some q) true) :
    1 ≤ s'.currentPacket.length - 6 ∧ s'.currentPacket.length - 6 ≤ 32 ∧
    s'.currentPacket.getD (s'.currentPacket.length - 2) 0 +
      256 * s'.currentPacket.getD (s'.currentPacket.length - 1) 0 =
      crc16 (s'.currentPacket.take (s'.currentPacket.length - 2)) := by
  obtain ⟨hp, hofflt, hqeq⟩ := handleReply_builtData h
  have hq : q < 65536 := by
    rw [hqeq]
    have h2 := getD_lt_256 hreply 2
    have h3 := getD_lt_256 hreply 3
    have : reply.getD 3 0 <<< 8 < 65536 := by
      rw [Nat.shiftLeft_eq]
      omega
    calc reply.getD 2 0 ||| reply.getD 3 0 <<< 8 < 2 ^ 16 :=
          Nat.or_lt_two_pow (by omega) (by omega)
      _ = 65536 := by norm_num
  rw [hp]
  exact mkDataPacket_framing blob q hblob hq hofflt

set_option maxRecDepth 10000 in
theorem uploadFirmware_data_packet_framing_witness :
    1 ≤ (mkDataPacket [7] 0).length - 6 ∧ (mkDataPacket [7] 0).length - 6 ≤ 32 ∧
    (mkDataPacket [7] 0).getD ((mkDataPacket [7] 0).length - 2) 0 +
      256 * (mkDataPacket [7] 0).getD ((mkDataPacket [7] 0).length - 1) 0 =
      crc16 ((mkDataPacket [7] 0).take ((mkDataPacket [7] 0).length - 2)) :=
  uploadFirmware_data_packet_framing [7] initEngineState
    { currentSeq := 0, currentPacket := mkDataPacket [7] 0, timeouts := 0, done := false }
    [42, 3, 0, 0] 0 (by decide) (by decide) (by decide)

/-! ## The get-time diagnostic (`getTime`, index.js lines 537-541) -/

/-- `getTime` (index.js lines 537-541) as a function of the reply that the
transport returns for the fixed probe packet `[0x40, 0x01, 0x01, 0x83, 0x01,
0x01]` (`none` models a missing reply; the transmission itself is external
I/O).  The JavaScript template literal formats the two bytes in decimal. -/
def getTime (reply : Option (List Nat)) : Option String :=
  match reply with
  | none => none
  | some reply =>
    if reply.length < 16 then none
    else if reply.getD 0 0 ≠ 0x40 then none
    else some (toString (reply.getD 14 0) ++ ":" ++ toString (reply.getD 15 0))

/-- C10 (amended): given a reply of length at least 16 whose first byte is
0x40, `getTime` returns the bytes at indices 14 and 15 — the last two bytes
only when the reply is exactly 16 bytes long — formatted `H:M` in decimal; for
a missing reply, a reply shorter than 16 bytes, or a wrong first byte it
returns the null indicator.  The original claim says "the returned packet's
last two bytes", which fails for replies longer than 16 bytes; see
`getTime_not_last_two_bytes`. -/
theorem getTime_spec (r : List Nat) :
    getTime none = none ∧
    (r.length < 16 → getTime (some r) = none) ∧
    (r.getD 0 0 ≠ 0x40 → getTime (some r) = none) ∧
    (16 ≤ r.length → r.getD 0 0 = 0x40 →
      getTime (some r) = some (toString (r.getD 14 0) ++ ":" ++ toString (r.getD 15 0))) := by
  refine ⟨rfl, ?_, ?_, ?_⟩
  · intro h
    simp only [getTime]
    rw [if_pos h]
  · intro h
    simp only [getTime]
    by_cases h16 : r.length < 16
    · rw [if_pos h16]
    · rw [if_neg h16, if_pos h]
  · intro h16 h0
    simp only [getTime]
    rw [if_neg (by omega), if_neg (fun hh => hh h0)]

theorem getTime_spec_witness :
    getTime (some [0x40, 0, 0, 0, 0, 0, 0, 0, 0, 0, 0, 0, 0, 0, 12, 34]) = some "12:34" ∧
    getTime (some [1, 2, 3]) = none :=
  ⟨(getTime_spec [0x40, 0, 0, 0, 0, 0, 0, 0, 0, 0, 0, 0, 0, 0, 12, 34]).2.2.2
      (by norm_num) (by norm_num),
   (getTime_spec [1, 2, 3]).2.1 (by norm_num)⟩

/-- C10 (counterexample to the claim as stated): for a 17-byte reply with
first byte 0x40, `getTime` formats bytes 14 and 15 (`"1:2"`), not the last two
bytes (`"2:9"`). -/
theorem getTime_not_last_two_bytes :
    getTime (some [0x40, 0, 0, 0, 0, 0, 0, 0, 0, 0, 0, 0, 0, 0, 1, 2, 9]) = some "1:2" ∧
    ([0x40, 0, 0, 0, 0, 0, 0, 0, 0, 0, 0, 0, 0, 0, 1, 2, 9] : List Nat).length = 17 ∧
    toString (([0x40, 0, 0, 0, 0, 0, 0, 0, 0, 0, 0, 0, 0, 0, 1, 2, 9] : List Nat).getD 15 0) ++
      ":" ++
      toString (([0x40, 0, 0, 0, 0, 0, 0, 0, 0, 0, 0, 0, 0, 0, 1, 2, 9] : List Nat).getD 16 0) =
      "2:9" ∧
    ("1:2" : String) ≠ "2:9" := by
  refine ⟨by decide, by decide, by decide, by decide⟩

/-! ## Archive decoder (`readFirmwareArchive`, index.js lines 56-178) -/

def maxBlobLength : Nat := 128 * 1024

/-- Value of a hexadecimal digit character, the digit set accepted by
JavaScript `parseInt` with radix 16. -/
def hexDigit (c : Char) : Option Nat :=
  if '0' ≤ c ∧ c ≤ '9' then some (c.toNat - '0'.toNat)
  else if 'a' ≤ c ∧ c ≤ 'f' then some (c.toNat - 'a'.toNat + 10)
  else if 'A' ≤ c ∧ c ≤ 'F' then some (c.toNat - 'A'.toNat + 10)
  else none

/-- JavaScript `parseInt(s, 16)` on a two-character string, `none` being NaN:
leading whitespace is skipped, a sign or a `0x`/`0X` prefix is consumed, and
parsing stops at the first character that is not a hexadecimal digit (so a
valid first digit followed by a junk character parses as the single digit).
Archive lines are ASCII, so the space and tab cases cover parseInt's
whitespace skipping here. -/
def parseIntPair (c1 c2 : Char) : Option Int :=
  if c1 = ' ' ∨ c1 = '\t' then (hexDigit c2).map fun d => (d : Int)
  else if c1 = '-' then (hexDigit c2).map fun d => -(d : Int)
  else if c1 = '+' then (hexDigit c2).map fun d => (d : Int)
  else if c1 = '0' ∧ (c2 = 'x' ∨ c2 = 'X') then none
  else
    match hexDigit c1, hexDigit c2 with
    | none, _ => none
    | some a, none => some (a : Int)
    | some a, some b => some (16 * a + b : Int)

/-- The digit pairs of a record line's tail, one `parseInt` result per pair
(index.js lines 78-84: `parseInt(line.substring(i * 2 + 1, i * 2 + 3), 16)`). -/
def parsePairs : List Char → List (Option Int)
  | c1 :: c2 :: rest => parseIntPair c1 c2 :: parsePairs rest
  | _ => []

/-- The byte stored into the `Uint8Array` for one `parseInt` result
(index.js line 82): NaN stores 0, and an integer is reduced mod 256. -/
def storeByte : Option Int → Nat
  | none => 0
  | some v => (v.emod 256).toNat

/-- The record checksum test value (index.js lines 79-85): the running JS sum
of the raw `parseInt` results, masked with `& 255` at the end.  If any pair
was NaN the whole sum is NaN and `NaN & 255` is 0, which passes the test. -/
def recordChecksum (pairs : List (Option Int)) : Int :=
  if pairs.any fun p => p.isNone then 0
  else ((pairs.filterMap id).sum).emod 256

/-- One product record of the decoded archive (index.js lines 166-170 and
143-146).  `blobHash` in the source is the SHA-256 hex digest of the blob,
computed by the external crypto library; we model the digest abstractly by
the byte sequence it is computed over, which is faithful for every claim
here since none inspects digest bytes.  `writes` and `maxAddr` are ghost
fields recording the `[start, end)` extents of the data records applied to
this product's blob and the final `maxAddress`; they never influence control
flow. -/
structure Product where
  name : String
  version : String
  message : String
  blob : Option (List Nat) := none
  blobLength : Option Nat := none
  blobHash : Option (List Nat) := none
  writes : List (Nat × Nat) := []
  maxAddr : Option Nat := none
deriving DecidableEq, Repr

/-- The mutable locals of `readFirmwareArchive` (index.js lines 62-70).
`writes` is ghost state mirroring `Product.writes` for the currently open
blob. -/
structure DecoderState where
  version : String := "unknown"
  products : List (String × Product) := []
  productId : Option String := none
  blob : Option (List Nat) := none
  extendedSegmentAddress : Nat := 0
  maxAddress : Nat := 0
  writes : List (Nat × Nat) := []
deriving DecidableEq, Repr

/-- Lookup in the `archive.products` object, modelled as an association list. -/
def lookupProduct : List (String × Product) → String → Option Product
  | [], _ => none
  | (k, v) :: rest, pid => if k = pid then some v else lookupProduct rest pid

/-- Keyed assignment `archive.products[id] = p`, replacing any existing entry. -/
def setProduct : List (String × Product) → String → Product → List (String × Product)
  | [], pid, p => [(pid, p)]
  | (k, v) :: rest, pid, p =>
    if k = pid then (pid, p) :: rest else (k, v) :: setProduct rest pid p

/-- `blob.set(data, start)` on a `Uint8Array` (index.js line 121), at an
offset the caller has bounds-checked. -/
def blobWrite (blob : List Nat) (start : Nat) (data : List Nat) : List Nat :=
  blob.take start ++ data ++ blob.drop (start + data.length)

/-- JavaScript `String.prototype.split` with a one-character separator, on the
character list of the line: `"".split(sep)` is `[""]`, and n separators yield
n+1 fields. -/
def splitOnChar (sep : Char) : List Char → List (List Char)
  | [] => [[]]
  | c :: rest =>
    if c = sep then [] :: splitOnChar sep rest
    else
      match splitOnChar sep rest with
      | [] => [[c]]
      | h :: t => (c :: h) :: t

/-- Header (non-record) line handling (index.js lines 160-174):
`line.split('=')` with exactly four fields registers a product; otherwise the
first such line becomes the archive version. -/
def processHeaderLine (st : DecoderState) (line : String) : Except String DecoderState :=
  if st.blob.isSome then .error "Encountered metadata while decoding a blob"
  else
    let s := (splitOnChar '=' line.toList).map fun cs => String.mk cs
    if s.length = 4 then
      .ok { st with
        productId := some (s.getD 0 ""),
        products := setProduct st.products (s.getD 0 "")
          { name := s.getD 1 "", version := s.getD 2 "", message := s.getD 3 "" } }
    else if st.version = "unknown" then .ok { st with version := line }
    else .ok st

/-- Lazy blob allocation on reaching a record line (index.js lines 89-95).
The `hexStream` side channel is external file output and decoder-state free,
so it is not modelled. -/
def allocBlob (st : DecoderState) : DecoderState :=
  if st.blob.isNone then
    { st with blob := some (List.replicate maxBlobLength 0xff),
              extendedSegmentAddress := 0, maxAddress := 0, writes := [] }
  else st

/-- Decoded-record dispatch (index.js lines 101-159).  The two `.error`
branches marked unreachable correspond to states the JavaScript cannot be in
(the caller just allocated the blob; `productId` keys are always inserted by
the header handler, so the JS lookup cannot yield `undefined`). -/
def processRecord (st : DecoderState) (pid : String) (record : List Nat) :
    Except String DecoderState :=
  match st.blob with
  | none => .error "internal: blob not allocated"
  | some blob =>
    match record with
    | [] => .error "Record data length is invalid"
    | dataLength :: _ =>
      if dataLength + 4 + 1 ≠ record.length then .error "Record data length is invalid"
      else
        let offset := (record.getD 1 0 <<< 8) ||| record.getD 2 0
        let recordType := record.getD 3 0
        if recordType = 0 then
          if dataLength ≠ 16 then .error "Data record malformed"
          else
            let startAddress := (st.extendedSegmentAddress <<< 4) + offset
            let endAddress := startAddress + dataLength
            if endAddress > maxBlobLength then .error "Data record offset out of range"
            else .ok { st with
              maxAddress := if endAddress > st.maxAddress then endAddress else st.maxAddress,
              blob := some (blobWrite blob startAddress ((record.drop 4).take dataLength)),
              writes := (startAddress, endAddress) :: st.writes }
        else if recordType = 1 then
          if dataLength ≠ 0 ∨ offset ≠ 0 then .error "EOF record malformed"
          else
            match lookupProduct st.products pid with
            | none => .error "internal: unknown product id"
            | some product =>
              if product.blob.isSome then
                .error "Encountered a second blob for the same product"
              else
                let finalBlob := blob.take st.maxAddress
                .ok { st with
                  products := setProduct st.products pid
                    { product with
                      blob := some finalBlob,
                      blobLength := some finalBlob.length,
                      blobHash := some finalBlob,
                      writes := st.writes,
                      maxAddr := some st.maxAddress },
                  blob := none, writes := [] }
        else if recordType = 2 then
          if dataLength ≠ 2 ∨ offset ≠ 0 then
            .error "Extended segment address record malformed"
          else .ok { st with
            extendedSegmentAddress := (record.getD 4 0 <<< 8) ||| record.getD 5 0 }
        else .error ("Unsupported record type " ++ toString recordType)

/-- `line.startsWith(':')` (index.js line 72). -/
def startsWithColon (line : String) : Bool :=
  match line.toList with
  | c :: _ => c = ':'
  | [] => false

/-- One line of the archive (the body of the `reader.on` callback,
index.js lines 71-175). -/
def processLine (st : DecoderState) (line : String) : Except String DecoderState :=
  if startsWithColon line then
    if line.toList.length % 2 ≠ 1 then .error "Record does not have an even number of digits"
    else
      match st.productId with
      | none => .error "Missing product metadata while decoding blob"
      | some pid =>
        let pairs := parsePairs (line.toList.drop 1)
        if recordChecksum pairs ≠ 0 then .error "Record does not have a zero checksum"
        else processRecord (allocBlob st) pid (pairs.map storeByte)
  else processHeaderLine st line

/-- The decoder's loop over the lines; an error on any line aborts the decode. -/
def processLines : DecoderState → List String → Except String DecoderState
  | st, [] => .ok st
  | st, l :: ls =>
    match processLine st l with
    | .error e => .error e
    | .ok st' => processLines st' ls

/-- `readFirmwareArchive` (index.js lines 56-178) on the decrypted,
line-split plaintext: returns the archive (`version` and `products`).
Decryption (`createFirmwareStream`) and line splitting are external I/O. -/
def readFirmwareArchive (lines : List String) :
    Except String (String × List (String × Product)) :=
  (processLines {} lines).map fun st => (st.version, st.products)


set_option maxRecDepth 20000 in
/-- C7 (counterexample to the claim as stated): an archive that registers
product "A", ends a blob with an EOF record, re-registers "A" with another
metadata line, and then ends a second blob with a second EOF record for the
same product id decodes successfully — the second EOF does not raise an error,
because the intervening metadata line replaced the product record by a fresh
one with no blob (index.js lines 163-170), so the duplicate check at
index.js line 126 sees no blob. -/
theorem second_EOF_after_reregistration_attaches :
    readFirmwareArchive ["v1", "A=n=1=m", ":00000001FF", "A=n=1=m", ":00000001FF"] =
      .ok ("v1", [("A", { name := "n", version := "1", message := "m",
                          blob := some [], blobLength := some 0, blobHash := some [],
                          writes := [], maxAddr := some 0 })]) := rfl

theorem parsePairs_length : ∀ cs : List Char, (parsePairs cs).length = cs.length / 2
  | [] => by simp [parsePairs]
  | [_] => by simp [parsePairs]
  | _ :: _ :: rest => by
    simp only [parsePairs, List.length_cons]
    rw [parsePairs_length rest]
    omega

theorem processLines_cons_error {st : DecoderState} {l : String} {e : String}
    (h : processLine st l = .error e) (ls : List String) :
    processLines st (l :: ls) = .error e := by
  simp [processLines, h]

theorem allocBlob_blob_isSome (st : DecoderState) : ∃ bb, (allocBlob st).blob = some bb := by
  unfold allocBlob
  cases h : st.blob with
  | none => exact ⟨List.replicate maxBlobLength 0xff, by simp [h]⟩
  | some bb => exact ⟨bb, by simp [h]⟩

/-- C8: every record line (a line starting with ':') whose total character
count is even or smaller than 11 makes the decoder raise an error, whatever
state it is in — and the decode of any archive aborts at that line, so the
line never contributes data to a blob or to the archive.  (Even length fails
the digit-parity check; an odd length below 11 decodes to at most 4 record
bytes, which cannot satisfy `dataLength + 5 = record.length`, when it gets
that far at all.) -/
theorem record_line_bad_shape_errors (st : DecoderState) (line : String)
    (hcolon : startsWithColon line = true)
    (hbad : line.toList.length % 2 = 0 ∨ line.toList.length < 11) :
    ∃ e, processLine st line = .error e ∧
      ∀ ls, processLines st (line :: ls) = .error e := by
  unfold processLine
  rw [if_pos hcolon]
  by_cases h2 : line.toList.length % 2 ≠ 1
  · rw [if_pos h2]
    exact ⟨_, rfl, fun ls => processLines_cons_error (by
      unfold processLine; rw [if_pos hcolon, if_pos h2]) ls⟩
  · rw [if_neg h2]
    have hlen : line.toList.length < 11 := by omega
    cases hp : st.productId with
    | none =>
      refine ⟨_, rfl, fun ls => processLines_cons_error ?_ ls⟩
      unfold processLine
      rw [if_pos hcolon, if_neg h2, hp]
    | some pid =>
      dsimp only
      by_cases hck : recordChecksum (parsePairs (line.toList.drop 1)) ≠ 0
      · refine ⟨_, by rw [if_pos hck], fun ls => processLines_cons_error ?_ ls⟩
        unfold processLine
        rw [if_pos hcolon, if_neg h2, hp]
        dsimp only
        rw [if_pos hck]
      · rw [if_neg hck]
        have hrl : ((parsePairs (line.toList.drop 1)).map storeByte).length ≤ 4 := by
          rw [List.length_map, parsePairs_length, List.length_drop]
          omega
        obtain ⟨bb, hbb⟩ := allocBlob_blob_isSome st
        have herr : ∃ e, processRecord (allocBlob st) pid
            ((parsePairs (line.toList.drop 1)).map storeByte) = .error e := by
          unfold processRecord
          rw [hbb]
          rcases hrec : (parsePairs (line.toList.drop 1)).map storeByte with _ | ⟨d, rest⟩
          · exact ⟨_, rfl⟩
          · rw [hrec] at hrl
            simp only [List.length_cons] at hrl
            dsimp only
            rw [if_pos (by simp only [List.length_cons]; omega)]
            exact ⟨_, rfl⟩
        obtain ⟨e, he⟩ := herr
        refine ⟨e, he, fun ls => processLines_cons_error ?_ ls⟩
        unfold processLine
        rw [if_pos hcolon, if_neg h2, hp]
        dsimp only
        rw [if_neg hck]
        exact he

theorem record_line_bad_shape_errors_witness :
    (∃ e, processLine {} ":00" = .error e ∧
      ∀ ls, processLines {} (":00" :: ls) = .error e) ∧
    (∃ e, processLine {} ":000000018" = .error e ∧
      ∀ ls, processLines {} (":000000018" :: ls) = .error e) :=
  ⟨record_line_bad_shape_errors {} ":00" (by decide) (Or.inr (by decide)),
   record_line_bad_shape_errors {} ":000000018" (by decide) (Or.inl (by decide))⟩

theorem lookupProduct_setProduct_self :
    ∀ (l : List (String × Product)) (pid : String) (p : Product),
      lookupProduct (setProduct l pid p) pid = some p
  | [], pid, p => by simp [setProduct, lookupProduct]
  | (k, v) :: rest, pid, p => by
    by_cases h : k = pid
    · simp [setProduct, lookupProduct, h]
    · simp only [setProduct, lookupProduct, if_neg h]
      exact lookupProduct_setProduct_self rest pid p

theorem allocBlob_of_none {st : DecoderState} (h : st.blob = none) :
    allocBlob st = { st with blob := some (List.replicate maxBlobLength 0xff),
                             extendedSegmentAddress := 0, maxAddress := 0, writes := [] } := by
  unfold allocBlob
  rw [h]
  rfl

theorem processLine_eof_ok (st : DecoderState) (pid : String) (product : Product)
    (hpid : st.productId = some pid)
    (hblob : st.blob = none)
    (hprod : lookupProduct st.products pid = some product)
    (hnob : product.blob = none) :
    processLine st ":00000001FF" = .ok { st with
      extendedSegmentAddress := 0, maxAddress := 0,
      products := setProduct st.products pid
        { product with blob := some [], blobLength := some 0,
                       blobHash := some [], writes := [], maxAddr := some 0 },
      blob := none, writes := [] } := by
  unfold processLine
  rw [if_pos (by decide), if_neg (by decide), hpid]
  dsimp only
  rw [if_neg (by decide)]
  rw [show (parsePairs (":00000001FF".toList.drop 1)).map storeByte = [0, 0, 0, 1, 255]
      from by decide]
  rw [allocBlob_of_none hblob]
  unfold processRecord
  try dsimp only
  rw [if_neg (by decide), if_neg (by decide), if_pos (by decide)]
  rw [if_neg (by decide), hprod]
  try dsimp only
  rw [hnob]
  try dsimp only
  try rw [if_neg (by decide)]
  rw [hpid]
  rfl

theorem allocBlob_products (st : DecoderState) : (allocBlob st).products = st.products := by
  unfold allocBlob
  split <;> rfl

/-- C7 (amended): when the decoder processes an EOF (type 1) record for the
current product while that product's record still has a blob attached — i.e.
with no intervening metadata line re-registering the id — it raises an error
rather than attaching a second blob.  (The hypotheses describe an arbitrary
well-formed EOF record line: starts with ':', odd length, zero checksum,
decoded bytes `[0, 0, 0, 1, c]`.)  The claim as stated — that *every* second
EOF for the same product id errors — fails when a metadata line re-registers
the product in between; see `second_EOF_after_reregistration_attaches`. -/
theorem second_EOF_with_blob_errors (st : DecoderState) (pid : String) (product : Product)
    (line : String) (c : Nat)
    (hpid : st.productId = some pid)
    (hprod : lookupProduct st.products pid = some product)
    (hblob : product.blob.isSome = true)
    (hcolon : startsWithColon line = true)
    (hodd : line.toList.length % 2 = 1)
    (hck : recordChecksum (parsePairs (line.toList.drop 1)) = 0)
    (hrec : (parsePairs (line.toList.drop 1)).map storeByte = [0, 0, 0, 1, c]) :
    processLine st line = .error "Encountered a second blob for the same product" := by
  unfold processLine
  rw [if_pos hcolon, if_neg (by omega), hpid]
  dsimp only
  rw [if_neg (fun h => h hck), hrec]
  obtain ⟨bb, hbb⟩ := allocBlob_blob_isSome st
  unfold processRecord
  rw [hbb]
  dsimp only
  rw [if_neg (by simp), if_neg (by simp [List.getD]), if_pos (by simp [List.getD]),
    if_neg (by simp [List.getD])]
  rw [allocBlob_products, hprod]
  dsimp only
  rw [if_pos hblob]

theorem second_EOF_with_blob_errors_witness :
    processLine
      { products := [("A", { name := "n", version := "1", message := "m",
                             blob := some [], blobLength := some 0, blobHash := some [],
                             writes := [], maxAddr := some 0 })],
        productId := some "A" }
      ":00000001FF" = .error "Encountered a second blob for the same product" :=
  second_EOF_with_blob_errors _ "A"
    { name := "n", version := "1", message := "m",
      blob := some [], blobLength := some 0, blobHash := some [],
      writes := [], maxAddr := some 0 }
    ":00000001FF" 255 rfl (by decide) rfl (by decide) (by decide) (by decide) (by decide)

/-- C9: if, while no blob is open, the decoder reads a non-record line that
splits on '=' into exactly four fields whose first field is the id of a
product already present, it replaces that product's entry with a fresh
metadata-only record — the previously attached blob, blobLength and blobHash
are discarded — and a later EOF record for that id is again accepted and
attaches a blob. -/
theorem header_reregistration_resets_product (st : DecoderState) (line : String)
    (id nm ver msg : String)
    (hnc : startsWithColon line = false)
    (hblob : st.blob = none)
    (hsplit : (splitOnChar '=' line.toList).map (fun cs => String.mk cs) = [id, nm, ver, msg])
    (hexists : (lookupProduct st.products id).isSome = true) :
    processLine st line = .ok { st with
      productId := some id,
      products := setProduct st.products id
        { name := nm, version := ver, message := msg } } ∧
    ∃ st2 p, processLine { st with
        productId := some id,
        products := setProduct st.products id
          { name := nm, version := ver, message := msg } } ":00000001FF" = .ok st2 ∧
      lookupProduct st2.products id = some p ∧ p.blob.isSome = true := by
  constructor
  · unfold processLine
    rw [hnc]
    rw [if_neg (by decide)]
    unfold processHeaderLine
    rw [hblob]
    rw [if_neg (by decide)]
    dsimp only
    rw [hsplit]
    rw [if_pos (by simp)]
    rfl
  · refine ⟨{ version := st.version,
              products := setProduct
                (setProduct st.products id { name := nm, version := ver, message := msg }) id
                { name := nm, version := ver, message := msg, blob := some [],
                  blobLength := some 0, blobHash := some [], writes := [],
                  maxAddr := some 0 },
              productId := some id, blob := none, extendedSegmentAddress := 0,
              maxAddress := 0, writes := [] }, ?_⟩
    refine ⟨{ name := nm, version := ver, message := msg, blob := some [],
              blobLength := some 0, blobHash := some [], writes := [],
              maxAddr := some 0 }, ?_, ?_, rfl⟩
    · exact processLine_eof_ok _ id { name := nm, version := ver, message := msg } rfl hblob
        (lookupProduct_setProduct_self _ _ _) rfl
    · exact lookupProduct_setProduct_self _ _ _

theorem header_reregistration_resets_product_witness :
    (processLine
      { products := [("A", { name := "old", version := "0", message := "om",
                             blob := some [1], blobLength := some 1, blobHash := some [1],
                             writes := [(0, 16)], maxAddr := some 1 })],
        productId := some "A" } "A=n=1=m" = .ok
      { products := setProduct
          [("A", { name := "old", version := "0", message := "om",
                   blob := some [1], blobLength := some 1, blobHash := some [1],
                   writes := [(0, 16)], maxAddr := some 1 })] "A"
          { name := "n", version := "1", message := "m" },
        productId := some "A" }) ∧
    ∃ st2 p, processLine
      { products := setProduct
          [("A", { name := "old", version := "0", message := "om",
                   blob := some [1], blobLength := some 1, blobHash := some [1],
                   writes := [(0, 16)], maxAddr := some 1 })] "A"
          { name := "n", version := "1", message := "m" },
        productId := some "A" } ":00000001FF" = .ok st2 ∧
      lookupProduct st2.products "A" = some p ∧ p.blob.isSome = true :=
  header_reregistration_resets_product
    { products := [("A", { name := "old", version := "0", message := "om",
                           blob := some [1], blobLength := some 1, blobHash := some [1],
                           writes := [(0, 16)], maxAddr := some 1 })],
      productId := some "A" }
    "A=n=1=m" "A" "n" "1" "m" (by decide) rfl (by decide) (by decide)

theorem getD_replicate {n i : Nat} {a d : Nat} (h : i < n) :
    (List.replicate n a).getD i d = a := by
  rw [List.getD_eq_getElem _ _ (by simpa using h)]
  exact List.getElem_replicate a (by simpa using h)

theorem getD_take {l : List Nat} {m i : Nat} {d : Nat} (h : i < m) :
    (l.take m).getD i d = l.getD i d := by
  by_cases hl : i < l.length
  · rw [List.getD_eq_getElem _ _ (by simp; omega), List.getD_eq_getElem _ _ hl]
    exact List.getElem_take ..
  · rw [List.getD_eq_default _ _ (by simp; omega), List.getD_eq_default _ _ (by omega)]

theorem getD_drop {l : List Nat} {k j : Nat} {d : Nat} :
    (l.drop k).getD j d = l.getD (k + j) d := by
  by_cases h : k + j < l.length
  · rw [List.getD_eq_getElem _ _ (by simp; omega), List.getD_eq_getElem _ _ h]
    rw [List.getElem_drop]
  · rw [List.getD_eq_default _ _ (by simp; omega), List.getD_eq_default _ _ (by omega)]

theorem blobWrite_length {blob data : List Nat} {start : Nat}
    (h : start + data.length ≤ blob.length) :
    (blobWrite blob start data).length = blob.length := by
  unfold blobWrite
  simp only [List.length_append, List.length_take, List.length_drop]
  omega

theorem blobWrite_getD_outside {blob data : List Nat} {start i : Nat}
    (hin : start + data.length ≤ blob.length)
    (h : i < start ∨ start + data.length ≤ i) :
    (blobWrite blob start data).getD i 0 = blob.getD i 0 := by
  unfold blobWrite
  rcases h with h | h
  · rw [List.getD_append _ _ _ _ (by simp; omega)]
    rw [List.getD_append _ _ _ _ (by simp; omega)]
    exact getD_take h
  · rw [List.getD_append_right _ _ _ _ (by simp; omega)]
    rw [getD_drop]
    congr 1
    simp only [List.length_append, List.length_take]
    omega

theorem lookupProduct_setProduct :
    ∀ (l : List (String × Product)) (pid : String) (p : Product) (q : String),
      lookupProduct (setProduct l pid p) q =
        if q = pid then some p else lookupProduct l q
  | [], pid, p, q => by
    simp only [setProduct, lookupProduct]
    by_cases h : q = pid
    · subst h
      simp
    · rw [if_neg (fun hh => h hh.symm), if_neg h]
  | (k, v) :: rest, pid, p, q => by
    by_cases hk : k = pid
    · subst hk
      simp only [setProduct, if_pos rfl, lookupProduct]
      by_cases hq : k = q
      · subst hq
        simp
      · rw [if_neg hq, if_neg (fun hh => hq hh.symm), if_neg hq]
    · simp only [setProduct, if_neg hk, lookupProduct]
      by_cases hq : k = q
      · subst hq
        rw [if_pos rfl, if_neg hk, if_pos rfl]
      · rw [if_neg hq, if_neg hq]
        exact lookupProduct_setProduct rest pid p q

/-- Index `i` was never written by any of the recorded data-record extents. -/
def unwritten (ws : List (Nat × Nat)) (i : Nat) : Prop :=
  ∀ w ∈ ws, i < w.1 ∨ w.2 ≤ i

/-- The highest end address of the recorded data-record extents. -/
def maxEnd (ws : List (Nat × Nat)) : Nat :=
  ws.foldr (fun w acc => max w.2 acc) 0

/-- The C6 property of a finished product record. -/
def ProductBlobOk (p : Product) : Prop :=
  ∀ b, p.blob = some b →
    ∃ m, p.maxAddr = some m ∧ b.length = m ∧ m = maxEnd p.writes ∧
      ∀ i < b.length, unwritten p.writes i → b.getD i 0 = 0xff

/-- Invariant of the decoder state: every finished product satisfies C6, and
the open blob buffer (when present) is full-capacity, tracks `maxAddress` as
the highest written end, and is 0xff wherever unwritten. -/
def DecoderInv (st : DecoderState) : Prop :=
  (∀ pid p, lookupProduct st.products pid = some p → ProductBlobOk p) ∧
  (∀ bb, st.blob = some bb →
    bb.length = maxBlobLength ∧ st.maxAddress ≤ maxBlobLength ∧
    st.maxAddress = maxEnd st.writes ∧
    ∀ i < maxBlobLength, unwritten st.writes i → bb.getD i 0 = 0xff)

theorem allocBlob_inv {st : DecoderState} (h : DecoderInv st) : DecoderInv (allocBlob st) := by
  unfold allocBlob
  split
  · next hb =>
    refine ⟨h.1, ?_⟩
    intro bb hbb
    simp only [Option.some.injEq] at hbb
    subst hbb
    refine ⟨List.length_replicate _ _, Nat.zero_le _, rfl, ?_⟩
    intro i hi _
    exact getD_replicate hi
  · exact h

theorem processHeaderLine_inv {st st' : DecoderState} {line : String}
    (hInv : DecoderInv st) (h : processHeaderLine st line = .ok st') : DecoderInv st' := by
  unfold processHeaderLine at h
  split at h
  · cases h
  · dsimp only at h
    split at h
    · cases h
      refine ⟨?_, hInv.2⟩
      intro pid p hp
      rw [lookupProduct_setProduct] at hp
      split at hp
      · cases hp
        intro b hb
        cases hb
      · exact hInv.1 pid p hp
    · split at h
      · cases h
        exact hInv
      · cases h
        exact hInv

theorem processRecord_inv {st st' : DecoderState} {pid : String} {record : List Nat}
    (hInv : DecoderInv st) (h : processRecord st pid record = .ok st') : DecoderInv st' := by
  unfold processRecord at h
  cases hb : st.blob with
  | none => rw [hb] at h; cases h
  | some bb =>
    rw [hb] at h
    obtain ⟨hblen, hmax_le, hmax_eq, hff⟩ := hInv.2 bb hb
    rcases record with _ | ⟨d, rest⟩
    · cases h
    · dsimp only at h
      split at h
      · cases h
      · next hlen5 =>
        split at h
        · next htype0 =>
          split at h
          · cases h
          · next hd16 =>
            split at h
            · cases h
            · next hend =>
              rw [not_not] at hd16
              rw [not_lt] at hend
              simp only [not_ne_iff] at hlen5
              simp only [List.length_cons] at hlen5
              cases h
              constructor
              · exact hInv.1
              · intro bb' hbb'
                simp only [Option.some.injEq] at hbb'
                subst hbb'
                dsimp only
                have hdata_len :
                    (((d :: rest).drop 4).take d).length = d := by
                  simp only [List.length_take, List.length_drop, List.length_cons]
                  omega
                have hbound :
                    (st.extendedSegmentAddress <<< 4 +
                      ((d :: rest).getD 1 0 <<< 8 ||| (d :: rest).getD 2 0)) +
                      (((d :: rest).drop 4).take d).length ≤ bb.length := by
                  rw [hdata_len, hblen]
                  omega
                refine ⟨?_, ?_, ?_, ?_⟩
                · rw [blobWrite_length hbound, hblen]
                · split <;> omega
                · have hcons :
                      maxEnd ((st.extendedSegmentAddress <<< 4 +
                          ((d :: rest).getD 1 0 <<< 8 ||| (d :: rest).getD 2 0),
                        st.extendedSegmentAddress <<< 4 +
                          ((d :: rest).getD 1 0 <<< 8 ||| (d :: rest).getD 2 0) + d) ::
                        st.writes) =
                      max (st.extendedSegmentAddress <<< 4 +
                          ((d :: rest).getD 1 0 <<< 8 ||| (d :: rest).getD 2 0) + d)
                        (maxEnd st.writes) := rfl
                  rw [hcons, ← hmax_eq]
                  split <;> omega
                · intro i hi hu
                  have hu0 := hu _ (List.mem_cons_self _ _)
                  have hu' : unwritten st.writes i := fun w hw => hu w (List.mem_cons_of_mem _ hw)
                  rw [blobWrite_getD_outside hbound (by rw [hdata_len]; dsimp only at hu0; omega)]
                  exact hff i hi hu'
        · next htype_ne0 =>
          split at h
          · next htype1 =>
            split at h
            · cases h
            · next hok =>
              cases hlp : lookupProduct st.products pid with
              | none => rw [hlp] at h; cases h
              | some product =>
                rw [hlp] at h
                dsimp only at h
                split at h
                · cases h
                · next hnb =>
                  cases h
                  constructor
                  · intro pid' p' hp'
                    dsimp only at hp'
                    rw [lookupProduct_setProduct] at hp'
                    split at hp'
                    · cases hp'
                      intro b hb'
                      simp only [Option.some.injEq] at hb'
                      subst hb'
                      refine ⟨st.maxAddress, rfl, ?_, hmax_eq, ?_⟩
                      · simp only [List.length_take, hblen]
                        omega
                      · intro i hlt hu
                        simp only [List.length_take, hblen] at hlt
                        rw [getD_take (by omega)]
                        exact hff i (by omega) hu
                    · exact hInv.1 pid' p' hp'
                  · intro bb' hbb'
                    cases hbb'
          · next htype_ne1 =>
            split at h
            · next htype2 =>
              split at h
              · cases h
              · cases h
                exact ⟨hInv.1, fun bb' hbb' => hInv.2 bb' (hb ▸ hbb')⟩
            · cases h

theorem processLine_inv {st st' : DecoderState} {line : String}
    (hInv : DecoderInv st) (h : processLine st line = .ok st') : DecoderInv st' := by
  unfold processLine at h
  by_cases hc : startsWithColon line = true
  · rw [if_pos hc] at h
    by_cases h2 : line.toList.length % 2 ≠ 1
    · rw [if_pos h2] at h
      cases h
    · rw [if_neg h2] at h
      cases hp : st.productId with
      | none => rw [hp] at h; cases h
      | some pid =>
        rw [hp] at h
        dsimp only at h
        split at h
        · cases h
        · exact processRecord_inv (allocBlob_inv hInv) h
  · rw [if_neg hc] at h
    exact processHeaderLine_inv hInv h

theorem processLines_inv :
    ∀ (ls : List String) (st st' : DecoderState),
      DecoderInv st → processLines st ls = .ok st' → DecoderInv st'
  | [], st, st', hInv, h => by
    cases h
    exact hInv
  | l :: ls, st, st', hInv, h => by
    unfold processLines at h
    cases hl : processLine st l with
    | error e => rw [hl] at h; cases h
    | ok st1 =>
      rw [hl] at h
      exact processLines_inv ls st1 st' (processLine_inv hInv hl) h

theorem initial_decoder_inv : DecoderInv {} := by
  constructor
  · intro pid p hp
    simp [lookupProduct] at hp
  · intro bb hbb
    cases hbb

/-- C6: after the archive decoder finishes, every product whose EOF record
was reached (i.e. that carries a blob) has `blob.length = maxAddress`, where
`maxAddress` is the highest end address (`start + 16`) of the data records
written to that blob, and every byte of the blob at an index never covered by
any data record equals 0xFF. -/
theorem readFirmwareArchive_blob_padding (lines : List String)
    (archive : String × List (String × Product))
    (h : readFirmwareArchive lines = .ok archive) :
    ∀ pid p, lookupProduct archive.2 pid = some p → ∀ b, p.blob = some b →
      ∃ m, p.maxAddr = some m ∧ b.length = m ∧ m = maxEnd p.writes ∧
        ∀ i < b.length, unwritten p.writes i → b.getD i 0 = 0xff := by
  unfold readFirmwareArchive at h
  cases hres : processLines {} lines with
  | error e => rw [hres] at h; cases h
  | ok stF =>
    rw [hres] at h
    cases h
    intro pid p hp b hb
    have hInv := processLines_inv lines {} stF initial_decoder_inv hres
    exact hInv.1 pid p hp b hb

theorem readFirmwareArchive_blob_padding_witness :
    ∃ m, (({ name := "name", version := "34", message := "msg",
             blob := some (List.replicate 16 0 ++ List.replicate 16 0xff ++ List.replicate 16 0),
             blobLength := some 48,
             blobHash := some (List.replicate 16 0 ++ List.replicate 16 0xff ++
               List.replicate 16 0),
             writes := [(32, 48), (0, 16)], maxAddr := some 48 } : Product).maxAddr = some m) ∧
      (List.replicate 16 0 ++ List.replicate 16 0xff ++ List.replicate 16 0).length = m ∧
      m = maxEnd [(32, 48), (0, 16)] ∧
      ∀ i < (List.replicate 16 0 ++ List.replicate 16 0xff ++ List.replicate 16 0).length,
        unwritten [(32, 48), (0, 16)] i →
          (List.replicate 16 0 ++ List.replicate 16 0xff ++ List.replicate 16 0).getD i 0 =
            0xff :=
  readFirmwareArchive_blob_padding
    ["V1", "PE0653=name=34=msg",
     ":1000000000000000000000000000000000000000F0",
     ":1000200000000000000000000000000000000000D0",
     ":00000001FF"]
    ("V1", [("PE0653",
      { name := "name", version := "34", message := "msg",
        blob := some (List.replicate 16 0 ++ List.replicate 16 0xff ++ List.replicate 16 0),
        blobLength := some 48,
        blobHash := some (List.replicate 16 0 ++ List.replicate 16 0xff ++ List.replicate 16 0),
        writes := [(32, 48), (0, 16)], maxAddr := some 48 })])
    (by rfl) "PE0653"
    { name := "name", version := "34", message := "msg",
      blob := some (List.replicate 16 0 ++ List.replicate 16 0xff ++ List.replicate 16 0),
      blobLength := some 48,
      blobHash := some (List.replicate 16 0 ++ List.replicate 16 0xff ++ List.replicate 16 0),
      writes := [(32, 48), (0, 16)], maxAddr := some 48 }
    (by rfl) (List.replicate 16 0 ++ List.replicate 16 0xff ++ List.replicate 16 0) rfl

/-! ## The bit-reversed CRC-32 (claim C5)

The source (`crc32brTableGen` / `crc32firmware`, crc.js lines 17-49) builds a
256-entry table and folds it over the buffer.  The claim compares it with the
standard reflected CRC-32 on bit-reversed input.  We first characterize the
swap networks `reverseBits8` / `reverseBits32` via `Nat.testBit`, then show
the CRC round function is linear over XOR, and conclude by induction over the
buffer with the invariant that the firmware register is the bit-reversal of
the standard register. -/

theorem swap16_testBit (x i : Nat) (h : i < 32) :
    ((((x <<< 16) &&& 0xffff0000) ||| ((x >>> 16) &&& 0x0000ffff)).testBit i) =
      x.testBit (i ^^^ 16) := by
  interval_cases i <;>
    simp [Nat.testBit_lor, Nat.testBit_land, Nat.testBit_shiftLeft, Nat.testBit_shiftRight]
  all_goals simp +decide [Nat.testBit_to_div_mod]

theorem swap8_testBit (x i : Nat) (h : i < 32) :
    ((((x <<< 8) &&& 0xff00ff00) ||| ((x >>> 8) &&& 0x00ff00ff)).testBit i) =
      x.testBit (i ^^^ 8) := by
  interval_cases i <;>
    simp [Nat.testBit_lor, Nat.testBit_land, Nat.testBit_shiftLeft, Nat.testBit_shiftRight]
  all_goals simp +decide [Nat.testBit_to_div_mod]

theorem swap4_testBit (x i : Nat) (h : i < 32) :
    ((((x <<< 4) &&& 0xf0f0f0f0) ||| ((x >>> 4) &&& 0x0f0f0f0f)).testBit i) =
      x.testBit (i ^^^ 4) := by
  interval_cases i <;>
    simp [Nat.testBit_lor, Nat.testBit_land, Nat.testBit_shiftLeft, Nat.testBit_shiftRight]
  all_goals simp +decide [Nat.testBit_to_div_mod]

theorem swap2_testBit (x i : Nat) (h : i < 32) :
    ((((x <<< 2) &&& 0xcccccccc) ||| ((x >>> 2) &&& 0x33333333)).testBit i) =
      x.testBit (i ^^^ 2) := by
  interval_cases i <;>
    simp [Nat.testBit_lor, Nat.testBit_land, Nat.testBit_shiftLeft, Nat.testBit_shiftRight]
  all_goals simp +decide [Nat.testBit_to_div_mod]

theorem swap1_testBit (x i : Nat) (h : i < 32) :
    ((((x <<< 1) &&& 0xaaaaaaaa) ||| ((x >>> 1) &&& 0x55555555)).testBit i) =
      x.testBit (i ^^^ 1) := by
  interval_cases i <;>
    simp [Nat.testBit_lor, Nat.testBit_land, Nat.testBit_shiftLeft, Nat.testBit_shiftRight]
  all_goals simp +decide [Nat.testBit_to_div_mod]

theorem reverseBits32_testBit (x : Nat) {i : Nat} (h : i < 32) :
    (reverseBits32 x).testBit i = x.testBit (31 - i) := by
  unfold reverseBits32
  rw [swap1_testBit _ i h]
  rw [swap2_testBit _ _ (Nat.xor_lt_two_pow (n := 5) h (by norm_num))]
  rw [swap4_testBit _ _ (Nat.xor_lt_two_pow (n := 5)
    (Nat.xor_lt_two_pow (n := 5) h (by norm_num)) (by norm_num))]
  rw [swap8_testBit _ _ (Nat.xor_lt_two_pow (n := 5) (Nat.xor_lt_two_pow (n := 5)
    (Nat.xor_lt_two_pow (n := 5) h (by norm_num)) (by norm_num)) (by norm_num))]
  rw [swap16_testBit _ _ (Nat.xor_lt_two_pow (n := 5) (Nat.xor_lt_two_pow (n := 5)
    (Nat.xor_lt_two_pow (n := 5) (Nat.xor_lt_two_pow (n := 5) h (by norm_num))
    (by norm_num)) (by norm_num)) (by norm_num))]
  congr 1
  revert h
  revert i
  decide

theorem swap4b_testBit (x i : Nat) (h : i < 8) :
    ((((x <<< 4) &&& 0xf0) ||| ((x >>> 4) &&& 0x0f)).testBit i) = x.testBit (i ^^^ 4) := by
  interval_cases i <;>
    simp [Nat.testBit_lor, Nat.testBit_land, Nat.testBit_shiftLeft, Nat.testBit_shiftRight]
  all_goals simp +decide [Nat.testBit_to_div_mod]

theorem swap2b_testBit (x i : Nat) (h : i < 8) :
    ((((x <<< 2) &&& 0xcc) ||| ((x >>> 2) &&& 0x33)).testBit i) = x.testBit (i ^^^ 2) := by
  interval_cases i <;>
    simp [Nat.testBit_lor, Nat.testBit_land, Nat.testBit_shiftLeft, Nat.testBit_shiftRight]
  all_goals simp +decide [Nat.testBit_to_div_mod]

theorem swap1b_testBit (x i : Nat) (h : i < 8) :
    ((((x <<< 1) &&& 0xaa) ||| ((x >>> 1) &&& 0x55)).testBit i) = x.testBit (i ^^^ 1) := by
  interval_cases i <;>
    simp [Nat.testBit_lor, Nat.testBit_land, Nat.testBit_shiftLeft, Nat.testBit_shiftRight]
  all_goals simp +decide [Nat.testBit_to_div_mod]

theorem reverseBits8_testBit (x : Nat) {i : Nat} (h : i < 8) :
    (reverseBits8 x).testBit i = x.testBit (7 - i) := by
  unfold reverseBits8
  rw [swap1b_testBit _ i h]
  rw [swap2b_testBit _ _ (Nat.xor_lt_two_pow (n := 3) h (by norm_num))]
  rw [swap4b_testBit _ _ (Nat.xor_lt_two_pow (n := 3)
    (Nat.xor_lt_two_pow (n := 3) h (by norm_num)) (by norm_num))]
  congr 1
  revert h
  revert i
  decide

theorem reverseBits32_lt (x : Nat) : reverseBits32 x < 2 ^ 32 := by
  unfold reverseBits32
  exact Nat.or_lt_two_pow
    (Nat.lt_of_le_of_lt Nat.and_le_right (by norm_num))
    (Nat.lt_of_le_of_lt Nat.and_le_right (by norm_num))

theorem reverseBits8_lt (x : Nat) : reverseBits8 x < 2 ^ 8 := by
  unfold reverseBits8
  exact Nat.or_lt_two_pow
    (Nat.lt_of_le_of_lt Nat.and_le_right (by norm_num))
    (Nat.lt_of_le_of_lt Nat.and_le_right (by norm_num))

theorem testBit_false_of_ge {x n i : Nat} (hx : x < 2 ^ n) (h : n ≤ i) :
    x.testBit i = false :=
  Nat.testBit_eq_false_of_lt (Nat.lt_of_lt_of_le hx (Nat.pow_le_pow_right (by norm_num) h))

theorem reverseBits32_xor (a b : Nat) :
    reverseBits32 (a ^^^ b) = reverseBits32 a ^^^ reverseBits32 b := by
  apply Nat.eq_of_testBit_eq
  intro i
  by_cases h : i < 32
  · rw [reverseBits32_testBit _ h, Nat.testBit_xor, Nat.testBit_xor,
      reverseBits32_testBit _ h, reverseBits32_testBit _ h]
  · rw [testBit_false_of_ge (reverseBits32_lt _) (by omega),
      testBit_false_of_ge (Nat.xor_lt_two_pow (reverseBits32_lt a) (reverseBits32_lt b))
        (by omega)]

theorem reverseBits8_xor (a b : Nat) :
    reverseBits8 (a ^^^ b) = reverseBits8 a ^^^ reverseBits8 b := by
  apply Nat.eq_of_testBit_eq
  intro i
  by_cases h : i < 8
  · rw [reverseBits8_testBit _ h, Nat.testBit_xor, Nat.testBit_xor,
      reverseBits8_testBit _ h, reverseBits8_testBit _ h]
  · rw [testBit_false_of_ge (reverseBits8_lt _) (by omega),
      testBit_false_of_ge (Nat.xor_lt_two_pow (reverseBits8_lt a) (reverseBits8_lt b))
        (by omega)]

set_option maxRecDepth 4000 in
theorem reverseBits8_involutive : ∀ b < 256, reverseBits8 (reverseBits8 b) = b := by decide

theorem reverseBits32_shiftRight24 (s : Nat) :
    reverseBits32 s >>> 24 = reverseBits8 (s &&& 0xff) := by
  apply Nat.eq_of_testBit_eq
  intro i
  rw [Nat.testBit_shiftRight]
  by_cases h : i < 8
  · rw [reverseBits32_testBit _ (show 24 + i < 32 from by omega), reverseBits8_testBit _ h,
      Nat.testBit_land]
    rw [show (0xff : Nat) = 2 ^ 8 - 1 from by norm_num, Nat.testBit_two_pow_sub_one]
    rw [show 31 - (24 + i) = 7 - i from by omega]
    simp [show 7 - i < 8 from by omega]
  · rw [testBit_false_of_ge (reverseBits32_lt s) (show 32 ≤ 24 + i from by omega),
      testBit_false_of_ge (reverseBits8_lt _) (show 8 ≤ i from by omega)]

theorem reverseBits32_shiftLeft8 {s : Nat} (hs : s < 2 ^ 32) :
    (reverseBits32 s <<< 8) &&& 0xffffffff = reverseBits32 (s >>> 8) := by
  apply Nat.eq_of_testBit_eq
  intro i
  rw [Nat.testBit_land, Nat.testBit_shiftLeft]
  rw [show (0xffffffff : Nat) = 2 ^ 32 - 1 from by norm_num, Nat.testBit_two_pow_sub_one]
  by_cases h32 : i < 32
  · rw [reverseBits32_testBit _ h32]
    by_cases h8 : 8 ≤ i
    · rw [reverseBits32_testBit _ (show i - 8 < 32 from by omega)]
      rw [Nat.testBit_shiftRight]
      rw [show 8 + (31 - i) = 31 - (i - 8) from by omega]
      simp [h8, h32]
    · rw [Nat.testBit_shiftRight]
      rw [testBit_false_of_ge hs (show 32 ≤ 8 + (31 - i) from by omega)]
      simp [h8]
  · rw [testBit_false_of_ge (reverseBits32_lt (s >>> 8)) (show 32 ≤ i from by omega)]
    simp [h32]

/-- One iteration of the CRC shift loop in `crc32brTableGen` (crc.js lines
22-28): shift right, folding in the reflected polynomial on carry. -/
def crcRight1 (r : Nat) : Nat :=
  if r &&& 1 ≠ 0 then (r >>> 1) ^^^ 0xedb88320 else r >>> 1

/-- The full 8-round loop of `crc32brTableGen` (crc.js lines 21-28), unrolled. -/
def crcRight8 (r : Nat) : Nat :=
  crcRight1 (crcRight1 (crcRight1 (crcRight1 (crcRight1 (crcRight1 (crcRight1 (crcRight1 r)))))))

theorem shiftRight_xor (a b k : Nat) : (a ^^^ b) >>> k = (a >>> k) ^^^ (b >>> k) := by
  apply Nat.eq_of_testBit_eq
  intro i
  simp [Nat.testBit_shiftRight, Nat.testBit_xor]

theorem crcRight1_xor (a b : Nat) : crcRight1 (a ^^^ b) = crcRight1 a ^^^ crcRight1 b := by
  have xlc : ∀ x y z : Nat, x ^^^ (y ^^^ z) = y ^^^ (x ^^^ z) := fun x y z => by
    rw [← Nat.xor_assoc, Nat.xor_comm x y, Nat.xor_assoc]
  have ha : a &&& 1 = a % 2 := Nat.and_one_is_mod a
  have hb : b &&& 1 = b % 2 := Nat.and_one_is_mod b
  have hx : (a ^^^ b) &&& 1 = a % 2 ^^^ b % 2 := by
    rw [Nat.and_xor_distrib_right, ha, hb]
  unfold crcRight1
  by_cases pa : a % 2 = 1 <;> by_cases pb : b % 2 = 1
  · rw [if_neg (show ¬((a ^^^ b) &&& 1 ≠ 0) from by rw [hx, pa, pb]; decide),
      if_pos (show a &&& 1 ≠ 0 from by rw [ha, pa]; decide),
      if_pos (show b &&& 1 ≠ 0 from by rw [hb, pb]; decide),
      shiftRight_xor]
    simp [Nat.xor_assoc, Nat.xor_comm, xlc, Nat.xor_self, Nat.xor_zero, Nat.zero_xor]
  · have hb0 : b % 2 = 0 := by omega
    rw [if_pos (show (a ^^^ b) &&& 1 ≠ 0 from by rw [hx, pa, hb0]; decide),
      if_pos (show a &&& 1 ≠ 0 from by rw [ha, pa]; decide),
      if_neg (show ¬(b &&& 1 ≠ 0) from by rw [hb, hb0]; decide),
      shiftRight_xor]
    simp [Nat.xor_assoc, Nat.xor_comm, xlc, Nat.xor_self, Nat.xor_zero, Nat.zero_xor]
  · have ha0 : a % 2 = 0 := by omega
    rw [if_pos (show (a ^^^ b) &&& 1 ≠ 0 from by rw [hx, ha0, pb]; decide),
      if_neg (show ¬(a &&& 1 ≠ 0) from by rw [ha, ha0]; decide),
      if_pos (show b &&& 1 ≠ 0 from by rw [hb, pb]; decide),
      shiftRight_xor]
    simp [Nat.xor_assoc, Nat.xor_comm, xlc, Nat.xor_self, Nat.xor_zero, Nat.zero_xor]
  · have ha0 : a % 2 = 0 := by omega
    have hb0 : b % 2 = 0 := by omega
    rw [if_neg (show ¬((a ^^^ b) &&& 1 ≠ 0) from by rw [hx, ha0, hb0]; decide),
      if_neg (show ¬(a &&& 1 ≠ 0) from by rw [ha, ha0]; decide),
      if_neg (show ¬(b &&& 1 ≠ 0) from by rw [hb, hb0]; decide)]
    exact shiftRight_xor a b 1

theorem crcRight8_xor (a b : Nat) : crcRight8 (a ^^^ b) = crcRight8 a ^^^ crcRight8 b := by
  unfold crcRight8
  simp only [crcRight1_xor]

theorem crcRight1_double (h : Nat) : crcRight1 (2 * h) = h := by
  unfold crcRight1
  rw [if_neg (show ¬(2 * h &&& 1 ≠ 0) from by rw [Nat.and_one_is_mod]; omega)]
  rw [Nat.shiftRight_eq_div_pow]
  omega

theorem crcRight8_shiftLeft8 (hi : Nat) : crcRight8 (hi <<< 8) = hi := by
  have h : hi <<< 8 = 2 * (2 * (2 * (2 * (2 * (2 * (2 * (2 * hi))))))) := by
    rw [Nat.shiftLeft_eq]
    ring
  rw [h]
  unfold crcRight8
  rw [crcRight1_double, crcRight1_double, crcRight1_double, crcRight1_double,
    crcRight1_double, crcRight1_double, crcRight1_double, crcRight1_double]

theorem crcRight1_lt {r : Nat} (h : r < 2 ^ 32) : crcRight1 r < 2 ^ 32 := by
  unfold crcRight1
  have hs : r >>> 1 < 2 ^ 32 := by
    rw [Nat.shiftRight_eq_div_pow]
    omega
  split
  · exact Nat.xor_lt_two_pow hs (by norm_num)
  · exact hs

theorem crcRight8_lt {r : Nat} (h : r < 2 ^ 32) : crcRight8 r < 2 ^ 32 := by
  unfold crcRight8
  exact crcRight1_lt (crcRight1_lt (crcRight1_lt (crcRight1_lt (crcRight1_lt
    (crcRight1_lt (crcRight1_lt (crcRight1_lt h)))))))

theorem lo_xor_hi (s : Nat) : (s &&& 0xff) ^^^ ((s >>> 8) <<< 8) = s := by
  apply Nat.eq_of_testBit_eq
  intro i
  rw [Nat.testBit_xor, Nat.testBit_land, Nat.testBit_shiftLeft, Nat.testBit_shiftRight,
    show (0xff : Nat) = 2 ^ 8 - 1 from by norm_num, Nat.testBit_two_pow_sub_one]
  by_cases h : i < 8
  · simp [h, show ¬(8 ≤ i) from by omega]
  · simp [h, show 8 ≤ i from by omega, show 8 + (i - 8) = i from by omega]

/-- The 256-entry table built by `crc32brTableGen` (crc.js lines 17-32), as a
function of the index.  The source loop stores
`reverseBits32 (crcRight8 i)` at index `reverseBits8 i`; since `reverseBits8`
is an involution on bytes (`reverseBits8_involutive`), the entry found at
index `j` is `reverseBits32 (crcRight8 (reverseBits8 j))`. -/
def crc32brTable (j : Nat) : Nat := reverseBits32 (crcRight8 (reverseBits8 j))

/-- `crc32firmware` (crc.js lines 43-49): table-driven bit-reversed CRC-32
with initial register 0xffffffff.  The JavaScript register is an `int32`
whose unsigned value mod 2^32 is tracked here; the explicit
`&&& 0xffffffff` is the mask written in the source. -/
def crc32firmware (buf : List Nat) : Nat :=
  buf.foldl
    (fun crc32 x => crc32brTable (x ^^^ (crc32 >>> 24)) ^^^ ((crc32 <<< 8) &&& 0xffffffff))
    0xffffffff

/-- Following the spec's words (§4.2, §8): one byte of the standard reflected
CRC-32, polynomial 0xEDB88320, computed bitwise (xor the byte into the low
bits of the register, then eight shift-and-conditionally-xor rounds). -/
def stdCrc32update (r b : Nat) : Nat := crcRight8 (r ^^^ b)

/-- Following the spec's words: the standard reflected CRC-32 of a byte
sequence — polynomial 0xEDB88320, initial value 0xFFFFFFFF, final XOR
0xFFFFFFFF. -/
def stdCrc32 (l : List Nat) : Nat := (l.foldl stdCrc32update 0xffffffff) ^^^ 0xffffffff

/-- 32-bit bitwise complement. -/
def complement32 (x : Nat) : Nat := x ^^^ 0xffffffff

theorem stdCrc32update_split {s : Nat} (b : Nat) :
    stdCrc32update s b = crcRight8 ((s &&& 0xff) ^^^ b) ^^^ (s >>> 8) := by
  unfold stdCrc32update
  conv =>
    lhs
    rw [show s = (s &&& 0xff) ^^^ ((s >>> 8) <<< 8) from (lo_xor_hi s).symm]
  rw [Nat.xor_assoc, Nat.xor_comm ((s >>> 8) <<< 8) b, ← Nat.xor_assoc]
  rw [crcRight8_xor, crcRight8_shiftLeft8]

theorem crc32firmware_step {s : Nat} (hs : s < 2 ^ 32) {x : Nat} (hx : x < 256) :
    crc32brTable (x ^^^ (reverseBits32 s >>> 24)) ^^^
      ((reverseBits32 s <<< 8) &&& 0xffffffff) =
    reverseBits32 (stdCrc32update s (reverseBits8 x)) := by
  have hlo : s &&& 0xff < 2 ^ 8 := Nat.lt_of_le_of_lt Nat.and_le_right (by norm_num)
  have hy : reverseBits8 x ^^^ (s &&& 0xff) < 256 := by
    have h := Nat.xor_lt_two_pow (reverseBits8_lt x) hlo
    norm_num at h
    exact h
  rw [reverseBits32_shiftRight24]
  rw [show x ^^^ reverseBits8 (s &&& 0xff) = reverseBits8 (reverseBits8 x ^^^ (s &&& 0xff))
    from by rw [reverseBits8_xor, reverseBits8_involutive x hx]]
  rw [show crc32brTable (reverseBits8 (reverseBits8 x ^^^ (s &&& 0xff))) =
      reverseBits32 (crcRight8 (reverseBits8 x ^^^ (s &&& 0xff)))
    from by unfold crc32brTable; rw [reverseBits8_involutive _ hy]]
  rw [reverseBits32_shiftLeft8 hs]
  rw [← reverseBits32_xor]
  rw [stdCrc32update_split, Nat.xor_comm (s &&& 0xff) (reverseBits8 x)]

theorem crc32firmware_fold :
    ∀ (buf : List Nat), (∀ b ∈ buf, b < 256) → ∀ s : Nat, s < 2 ^ 32 →
      buf.foldl
        (fun crc32 x => crc32brTable (x ^^^ (crc32 >>> 24)) ^^^ ((crc32 <<< 8) &&& 0xffffffff))
        (reverseBits32 s) =
      reverseBits32 ((buf.map reverseBits8).foldl stdCrc32update s)
  | [], _, s, _ => rfl
  | x :: rest, hb, s, hs => by
    simp only [List.foldl_cons, List.map_cons]
    rw [crc32firmware_step hs (hb x (by simp))]
    exact crc32firmware_fold rest (fun b hbb => hb b (by simp [hbb]))
      (stdCrc32update s (reverseBits8 x))
      (crcRight8_lt (Nat.xor_lt_two_pow hs
        (Nat.lt_of_lt_of_le (reverseBits8_lt x) (by norm_num))))

set_option maxRecDepth 10000 in
/-- C5: for every byte sequence `x`, `crc32firmware x` equals
`reverseBits32` of the 32-bit complement of the standard reflected CRC-32
(polynomial 0xEDB88320, initial value 0xFFFFFFFF, final XOR 0xFFFFFFFF)
computed over the sequence obtained by bit-reversing each byte of `x`. -/
theorem crc32firmware_is_reversed_std_crc32 (x : List Nat) (hx : ∀ b ∈ x, b < 256) :
    crc32firmware x = reverseBits32 (complement32 (stdCrc32 (x.map reverseBits8))) := by
  unfold crc32firmware complement32 stdCrc32
  rw [Nat.xor_cancel_right]
  have h := crc32firmware_fold x hx 0xffffffff (by norm_num)
  rw [show reverseBits32 0xffffffff = 0xffffffff from by decide] at h
  exact h

set_option maxRecDepth 10000 in
theorem crc32firmware_is_reversed_std_crc32_witness :
    crc32firmware [0x12, 0x34] =
      reverseBits32 (complement32 (stdCrc32 ([0x12, 0x34].map reverseBits8))) :=
  crc32firmware_is_reversed_std_crc32 [0x12, 0x34] (by decide)
